import Mathlib

/-!
Verification of the decimal column type of the `arrow2` fork
(`src/array/decimal/{mod.rs, mutable.rs, iterator.rs}`).

Shallow embedding conventions:
* `i128` values are `Int` with explicit reduction modulo `2 ^ 128`;
  `usize` values are `Nat`.
* Bytes are `Nat` values below 256; byte buffers are `List Nat`.
* A Rust function that can panic is embedded as an `Option`-returning
  function, `none` marking the panic; recoverable `Result` values are
  `Except ArrowError`.
* The fixed-size-binary delegate, the bitmap utilities and the inherent
  `len`/`value_unchecked` accessors live outside the supplied source
  files; those are modelled from the specification (each such definition
  carries a doc comment starting with `Modelled from the spec:`).
-/

/-- Error type of the crate, restricted to the one variant the decimal
module constructs (`ArrowError::InvalidArgumentError`). -/
inductive ArrowError where
  | invalidArgumentError (msg : String)
deriving DecidableEq, Repr

/-- The data-type descriptor variants used by the decimal module
(`DataType::Decimal(precision, scale)` and `DataType::FixedSizeBinary(n)`). -/
inductive DataType where
  | decimal (precision scale : Nat)
  | fixedSizeBinary (n : Nat)
deriving DecidableEq, Repr

/-- Little-endian base-256 digits: `n` bytes of `u`, least significant first.
Embeds the byte-level view of `i128::to_le_bytes` (with `n = 16`). -/
def toLeBytesAux : Nat → Nat → List Nat
  | 0, _ => []
  | n + 1, u => (u % 256) :: toLeBytesAux n (u / 256)

/-- Value of a little-endian byte list: inverse direction of
`toLeBytesAux`.  Embeds the byte-level view of `i128::from_le_bytes`. -/
def fromLeBytesNat : List Nat → Nat
  | [] => 0
  | b :: bs => b + 256 * fromLeBytesNat bs

/-- `i128::to_le_bytes`: the 16-byte little-endian two's-complement
representation of `v`. -/
def i128_to_le_bytes (v : Int) : List Nat :=
  toLeBytesAux 16 ((v % (2 : Int) ^ 128).toNat)

/-- `i128::from_le_bytes`: reinterpret little-endian bytes as a signed
128-bit integer. -/
def i128_from_le_bytes (bs : List Nat) : Int :=
  let u := fromLeBytesNat bs
  if u < 2 ^ 127 then (u : Int) else (u : Int) - 2 ^ 128

/-- `MAX_DECIMAL_FOR_EACH_PRECISION` from `src/array/decimal/mod.rs`,
transcribed entry for entry. -/
def MAX_DECIMAL_FOR_EACH_PRECISION : List Int := [
  9,
  99,
  999,
  9999,
  99999,
  999999,
  9999999,
  99999999,
  999999999,
  9999999999,
  99999999999,
  999999999999,
  9999999999999,
  99999999999999,
  999999999999999,
  9999999999999999,
  99999999999999999,
  999999999999999999,
  9999999999999999999,
  99999999999999999999,
  999999999999999999999,
  9999999999999999999999,
  99999999999999999999999,
  999999999999999999999999,
  9999999999999999999999999,
  99999999999999999999999999,
  999999999999999999999999999,
  9999999999999999999999999999,
  99999999999999999999999999999,
  999999999999999999999999999999,
  9999999999999999999999999999999,
  99999999999999999999999999999999,
  999999999999999999999999999999999,
  9999999999999999999999999999999999,
  99999999999999999999999999999999999,
  999999999999999999999999999999999999,
  9999999999999999999999999999999999999,
  170141183460469231731687303715884105727]

/-- `MIN_DECIMAL_FOR_EACH_PRECISION` from `src/array/decimal/mod.rs`,
transcribed entry for entry. -/
def MIN_DECIMAL_FOR_EACH_PRECISION : List Int := [
  -9,
  -99,
  -999,
  -9999,
  -99999,
  -999999,
  -9999999,
  -99999999,
  -999999999,
  -9999999999,
  -99999999999,
  -999999999999,
  -9999999999999,
  -99999999999999,
  -999999999999999,
  -9999999999999999,
  -99999999999999999,
  -999999999999999999,
  -9999999999999999999,
  -99999999999999999999,
  -999999999999999999999,
  -9999999999999999999999,
  -99999999999999999999999,
  -999999999999999999999999,
  -9999999999999999999999999,
  -99999999999999999999999999,
  -999999999999999999999999999,
  -9999999999999999999999999999,
  -99999999999999999999999999999,
  -999999999999999999999999999999,
  -9999999999999999999999999999999,
  -99999999999999999999999999999999,
  -999999999999999999999999999999999,
  -9999999999999999999999999999999999,
  -99999999999999999999999999999999999,
  -999999999999999999999999999999999999,
  -9999999999999999999999999999999999999,
  -170141183460469231731687303715884105728]

/-- `DEFAULT_DECIMAL_LENGTH` from `src/array/decimal/mod.rs`. -/
def DEFAULT_DECIMAL_LENGTH : Nat := 16

/- ### Digit lemmas about the little-endian encoding -/

theorem toLeBytesAux_length (n u : Nat) : (toLeBytesAux n u).length = n := by
  induction n generalizing u with
  | zero => rfl
  | succ n ih => simp [toLeBytesAux, ih]

theorem fromLeBytesNat_toLeBytesAux (n u : Nat) :
    fromLeBytesNat (toLeBytesAux n u) = u % 256 ^ n := by
  induction n generalizing u with
  | zero => simp [toLeBytesAux, fromLeBytesNat, Nat.mod_one]
  | succ n ih =>
      simp only [toLeBytesAux, fromLeBytesNat, ih]
      rw [pow_succ']
      exact (Nat.mod_mul).symm

theorem toLeBytesAux_drop (k : Nat) :
    ∀ (n u : Nat), k ≤ n →
      (toLeBytesAux n u).drop k = toLeBytesAux (n - k) (u / 256 ^ k) := by
  induction k with
  | zero => intro n u _; simp
  | succ k ih =>
      intro n u hk
      match n, hk with
      | n + 1, hk =>
          have hk' : k ≤ n := Nat.succ_le_succ_iff.mp hk
          simp only [toLeBytesAux, List.drop_succ_cons]
          rw [ih n (u / 256) hk', Nat.succ_sub_succ]
          congr 1
          rw [Nat.div_div_eq_div_mul, pow_succ']

theorem i128_round_trip (v : Int) (h1 : -(2 ^ 127) ≤ v) (h2 : v < 2 ^ 127) :
    i128_from_le_bytes (i128_to_le_bytes v) = v := by
  have hpos : (0 : Int) < 2 ^ 128 := by positivity
  have hmodlt : v % (2 : Int) ^ 128 < 2 ^ 128 := Int.emod_lt_of_pos v hpos
  have hmodge : (0 : Int) ≤ v % (2 : Int) ^ 128 := Int.emod_nonneg v (ne_of_gt hpos)
  have h256 : (256 : Nat) ^ 16 = 2 ^ 128 := by norm_num
  have hcast : ((2 ^ 128 : Nat) : Int) = (2 : Int) ^ 128 := by norm_cast
  have hcast7 : ((2 ^ 127 : Nat) : Int) = (2 : Int) ^ 127 := by norm_cast
  have hdouble : (2 : Int) ^ 128 = 2 * 2 ^ 127 := by ring
  unfold i128_to_le_bytes i128_from_le_bytes
  rw [fromLeBytesNat_toLeBytesAux, h256]
  have hult : (v % (2 : Int) ^ 128).toNat < 2 ^ 128 := by
    rw [Int.toNat_lt hmodge, hcast]
    exact hmodlt
  rw [Nat.mod_eq_of_lt hult]
  rcases le_or_lt 0 v with hv | hv
  · have hveq : v % (2 : Int) ^ 128 = v :=
      Int.emod_eq_of_lt hv (lt_of_lt_of_le h2 (by norm_num))
    rw [hveq]
    have hlt : v.toNat < 2 ^ 127 := by
      rw [Int.toNat_lt hv, hcast7]
      exact h2
    rw [if_pos hlt]
    exact Int.toNat_of_nonneg hv
  · have h0 : (0 : Int) ≤ v + 2 ^ 128 := by
      have hmono : -(2 ^ 128 : Int) ≤ -(2 ^ 127) := by norm_num
      linarith
    have hlt2 : v + 2 ^ 128 < 2 ^ 128 := by linarith
    have hveq : v % (2 : Int) ^ 128 = v + 2 ^ 128 := by
      have hstep : (v + 2 ^ 128 * 1) % (2 : Int) ^ 128 = v % (2 : Int) ^ 128 :=
        Int.add_mul_emod_self_left v ((2 : Int) ^ 128) 1
      rw [mul_one] at hstep
      rw [← hstep]
      exact Int.emod_eq_of_lt h0 hlt2
    rw [hveq]
    have hge : ¬ ((v + 2 ^ 128).toNat < 2 ^ 127) := by
      rw [Int.toNat_lt h0, hcast7]
      intro hcon
      linarith
    rw [if_neg hge]
    rw [Int.toNat_of_nonneg h0]
    ring

/- ### The fixed-size-binary delegate (external collaborator) -/

/-- Modelled from the spec: the immutable fixed-size-binary delegate
(`FixedSizeBinaryArray`, not under `src/`), which "holds the raw bytes and
the optional null bitmap"; `size` is the fixed byte width per element. -/
structure FixedSizeBinaryArray where
  size : Nat
  values : List Nat
  validity : Option (List Bool)
deriving DecidableEq, Repr

/-- Modelled from the spec: the delegate's length, the number of
`size`-byte slots stored in `values`. -/
def FixedSizeBinaryArray.len (m : FixedSizeBinaryArray) : Nat :=
  m.values.length / m.size

/-- Modelled from the spec: `get-raw-bytes(index) -> byte slice of declared
width`, the bytes `values[i * size .. (i + 1) * size]`. -/
def FixedSizeBinaryArray.value (m : FixedSizeBinaryArray) (i : Nat) : List Nat :=
  (m.values.drop (i * m.size)).take m.size

/-- Modelled from the spec: the delegate's `slice(offset, length)`, a view
keeping bytes of slots `offset .. offset + length` and the matching slice of
the validity bitmap. -/
def FixedSizeBinaryArray.slice_unchecked (m : FixedSizeBinaryArray)
    (offset length : Nat) : FixedSizeBinaryArray :=
  { m with
    values := (m.values.drop (offset * m.size)).take (length * m.size),
    validity := m.validity.map (fun bs => (bs.drop offset).take length) }

/-- Modelled from the spec: the mutable fixed-size-binary builder
(`MutableFixedSizeBinaryArray`, not under `src/`): a byte buffer, an
optional validity bitmap, and the configured slot width. -/
structure MutableFixedSizeBinaryArray where
  size : Nat
  values : List Nat
  validity : Option (List Bool)
deriving DecidableEq, Repr

/-- Modelled from the spec: the builder's logical length. -/
def MutableFixedSizeBinaryArray.len (m : MutableFixedSizeBinaryArray) : Nat :=
  m.values.length / m.size

/-- Modelled from the spec: `with_capacity(byte_width, capacity)` — a fresh
builder with the given slot width; the capacity is only an allocation hint
with no observable effect on content. -/
def MutableFixedSizeBinaryArray.with_capacity (byte_width _capacity : Nat) :
    MutableFixedSizeBinaryArray :=
  { size := byte_width, values := [], validity := none }

/-- Modelled from the spec: `push-optional-bytes` with `Some(bytes)` —
fails (returning the builder unchanged) iff the byte slice length differs
from the configured slot width; otherwise appends the bytes and a set
validity bit. -/
def MutableFixedSizeBinaryArray.try_push_some (bytes : List Nat)
    (m : MutableFixedSizeBinaryArray) :
    Except ArrowError Unit × MutableFixedSizeBinaryArray :=
  if bytes.length = m.size then
    (Except.ok (), { m with
      values := m.values ++ bytes,
      validity := m.validity.map (fun bs => bs ++ [true]) })
  else
    (Except.error (ArrowError.invalidArgumentError
      ("FixedSizeBinaryArray requires every item to be of its length")), m)

/-- Modelled from the spec: `push-optional-bytes` with `None` — appends a
zero-filled slot and an unset validity bit, materializing an all-set bitmap
for the existing elements when none was present; it cannot fail. -/
def MutableFixedSizeBinaryArray.push_none (m : MutableFixedSizeBinaryArray) :
    MutableFixedSizeBinaryArray :=
  { m with
    values := m.values ++ List.replicate m.size 0,
    validity := some ((m.validity.getD (List.replicate m.len true)) ++ [false]) }

/-- Modelled from the spec: finalization of the builder into the immutable
delegate, "converted, not copied". -/
def MutableFixedSizeBinaryArray.as_fixed_size_array
    (m : MutableFixedSizeBinaryArray) : FixedSizeBinaryArray :=
  { size := m.size, values := m.values, validity := m.validity }

/- ### DecimalArray (src/array/decimal/mod.rs) -/

/-- `DecimalArray` from `src/array/decimal/mod.rs`: data-type descriptor,
fixed-size-binary delegate, and denormalized precision/scale. -/
structure DecimalArray where
  data_type : DataType
  data : FixedSizeBinaryArray
  precision : Nat
  scale : Nat
deriving DecidableEq, Repr

/-- `DecimalArray::from_data`. -/
def DecimalArray.from_data (precision scale : Nat) (data : FixedSizeBinaryArray) :
    DecimalArray :=
  { data_type := DataType.decimal precision scale,
    scale := scale, precision := precision, data := data }

/-- Modelled from the spec: the inherent `len` accessor the trait impl and
`slice` resolve to is not under `src/`; the spec fixes `len() == delegate.len()`. -/
def DecimalArray.len (a : DecimalArray) : Nat :=
  a.data.len

/-- `DecimalArray::value` from `src/array/decimal/mod.rs`: asserts
`i < self.data.len()` (panic embedded as `none`), fetches the delegate's
byte slice, converts it to a 16-byte array (the `expect` panic embedded as
`none` when the slice length differs from 16), and decodes it little-endian. -/
def DecimalArray.value (a : DecimalArray) (i : Nat) : Option Int :=
  if i < a.data.len then
    let v := a.data.value i
    if v.length = DEFAULT_DECIMAL_LENGTH then some (i128_from_le_bytes v)
    else none
  else none

/-- `DecimalArray::slice_unchecked` from `src/array/decimal/mod.rs`. -/
def DecimalArray.slice_unchecked (a : DecimalArray) (offset length : Nat) :
    DecimalArray :=
  { data_type := a.data_type,
    precision := a.precision,
    scale := a.scale,
    data := a.data.slice_unchecked offset length }

/-- `DecimalArray::slice` from `src/array/decimal/mod.rs`: asserts
`offset + length <= self.len()` (panic embedded as `none`), then delegates
to `slice_unchecked`. -/
def DecimalArray.slice (a : DecimalArray) (offset length : Nat) :
    Option DecimalArray :=
  if offset + length ≤ a.len then some (a.slice_unchecked offset length)
  else none

/-- Modelled from the spec: `Array::is_valid`-style validity query (the
bitmap collaborator's "indexed validity bit"; positions are valid when no
bitmap is present). -/
def DecimalArray.isValid (a : DecimalArray) (i : Nat) : Bool :=
  match a.data.validity with
  | none => true
  | some bs => bs.getD i false

/-- Modelled from the spec: `value_unchecked`, the unsafe accessor the
iterator uses (referenced by `src/array/decimal/iterator.rs` but defined
outside `src/`): decode the element's bytes without a bounds check. -/
def DecimalArray.value_unchecked (a : DecimalArray) (i : Nat) : Int :=
  i128_from_le_bytes (a.data.value i)

/- ### MutableDecimalArray (src/array/decimal/mutable.rs) -/

/-- `MutableDecimalArray` from `src/array/decimal/mutable.rs`. -/
structure MutableDecimalArray where
  inner : MutableFixedSizeBinaryArray
  precision : Nat
  scale : Nat
deriving DecidableEq, Repr

/-- `MutableDecimalArray::new(capacity, precision, scale)`: a builder over a
delegate with byte width 16; no validation of `precision`. -/
def MutableDecimalArray.new (capacity precision scale : Nat) : MutableDecimalArray :=
  { inner := MutableFixedSizeBinaryArray.with_capacity 16 capacity,
    precision := precision, scale := scale }

/-- `MutableDecimalArray::from_i128_to_fixed_size_bytes` from
`src/array/decimal/mutable.rs`: errors for `size > 16`; otherwise returns
`res[16 - size .. 16]` of the little-endian representation `res`. -/
def MutableDecimalArray.from_i128_to_fixed_size_bytes (v : Int) (size : Nat) :
    Except ArrowError (List Nat) :=
  if size > 16 then
    Except.error (ArrowError.invalidArgumentError
      ("DecimalBuilder only supports values up to 16 bytes."))
  else
    Except.ok ((i128_to_le_bytes v).drop (16 - size))

/-- `MutableDecimalArray::len`. -/
def MutableDecimalArray.len (b : MutableDecimalArray) : Nat :=
  b.inner.len

/-- `MutableDecimalArray::push_null`: unconditional delegate null push. -/
def MutableDecimalArray.push_null (b : MutableDecimalArray) : MutableDecimalArray :=
  { b with inner := b.inner.push_none }

/-- `MutableDecimalArray::as_box`: snapshot into an immutable `DecimalArray`
over the converted delegate. -/
def MutableDecimalArray.as_box (b : MutableDecimalArray) : DecimalArray :=
  DecimalArray.from_data b.precision b.scale b.inner.as_fixed_size_array

/-- `MutableDecimalArray::as_arc`: same construction as `as_box` (the
`Box`/`Arc` distinction is ownership-only and has no content effect). -/
def MutableDecimalArray.as_arc (b : MutableDecimalArray) : DecimalArray :=
  DecimalArray.from_data b.precision b.scale b.inner.as_fixed_size_array

/-- `TryPush::try_push` from `src/array/decimal/mutable.rs`, parametrized
by the delegate's push operation (`innerPush`) so that the treatment of the
delegate's `Result` — discarded on line 112 of the source, hence the `.2`
projection — is visible in the embedding.  Panics (table indexing with
`self.precision - 1` out of bounds, or the `usize` underflow at
`precision == 0`) are embedded as `none`. -/
def MutableDecimalArray.try_push_with
    (innerPush : List Nat → MutableFixedSizeBinaryArray →
      Except ArrowError Unit × MutableFixedSizeBinaryArray)
    (b : MutableDecimalArray) (value : Option Int) :
    Option (Except ArrowError Unit × MutableDecimalArray) :=
  match value with
  | some v =>
    if b.precision = 0 then none
    else if 38 ≤ b.precision - 1 then none
    else if MAX_DECIMAL_FOR_EACH_PRECISION.getD (b.precision - 1) 0 < v
        ∨ v < MIN_DECIMAL_FOR_EACH_PRECISION.getD (b.precision - 1) 0 then
      some (Except.error (ArrowError.invalidArgumentError
        ("The value of " ++ toString v ++ " i128 is not compatible with Decimal("
          ++ toString b.precision ++ "," ++ toString b.scale ++ ")")), b)
    else
      match MutableDecimalArray.from_i128_to_fixed_size_bytes v b.inner.size with
      | Except.error e => some (Except.error e, b)
      | Except.ok value_as_bytes =>
        if b.inner.size ≠ value_as_bytes.length then
          some (Except.error (ArrowError.invalidArgumentError
            ("Byte slice does not have the same length as DecimalBuilder value lengths")), b)
        else
          some (Except.ok (), { b with inner := (innerPush value_as_bytes b.inner).2 })
  | none =>
    some (Except.ok (), { b with inner := b.inner.push_none })

/-- `TryPush::try_push` with the concrete delegate push. -/
def MutableDecimalArray.try_push (b : MutableDecimalArray) (value : Option Int) :
    Option (Except ArrowError Unit × MutableDecimalArray) :=
  MutableDecimalArray.try_push_with MutableFixedSizeBinaryArray.try_push_some b value

/- ### Iteration (src/array/decimal/iterator.rs) -/

/-- `DecimalValuesIter` from `src/array/decimal/iterator.rs`; the source
field `end` is renamed `endIdx` (`end` is a Lean keyword). -/
structure DecimalValuesIter where
  array : DecimalArray
  index : Nat
  endIdx : Nat
deriving DecidableEq, Repr

/-- `DecimalValuesIter::new`. -/
def DecimalValuesIter.new (a : DecimalArray) : DecimalValuesIter :=
  { array := a, index := 0, endIdx := a.len }

/-- `Iterator::next` for `DecimalValuesIter`: yields the element at the old
`index` and advances, or `none` at exhaustion (`index == end`). -/
def DecimalValuesIter.next (it : DecimalValuesIter) :
    Option (Int × DecimalValuesIter) :=
  if it.index = it.endIdx then none
  else some (it.array.value_unchecked it.index, { it with index := it.index + 1 })

/-- `DoubleEndedIterator::next_back` for `DecimalValuesIter`: decrements
`end` first and yields the element at the new `end`. -/
def DecimalValuesIter.next_back (it : DecimalValuesIter) :
    Option (Int × DecimalValuesIter) :=
  if it.index = it.endIdx then none
  else some (it.array.value_unchecked (it.endIdx - 1), { it with endIdx := it.endIdx - 1 })

/-- `Iterator::size_hint` for `DecimalValuesIter`. -/
def DecimalValuesIter.size_hint (it : DecimalValuesIter) : Nat × Option Nat :=
  (it.endIdx - it.index, some (it.endIdx - it.index))

/-- Collect by repeated `next`, with explicit fuel (the exact remaining
count `end - index` in `toListFwd`). -/
def DecimalValuesIter.collectNext : Nat → DecimalValuesIter → List Int
  | 0, _ => []
  | Nat.succ n, it =>
    match it.next with
    | none => []
    | some (v, it') => v :: DecimalValuesIter.collectNext n it'

/-- Collect by repeated `next_back`, with explicit fuel. -/
def DecimalValuesIter.collectBack : Nat → DecimalValuesIter → List Int
  | 0, _ => []
  | Nat.succ n, it =>
    match it.next_back with
    | none => []
    | some (v, it') => v :: DecimalValuesIter.collectBack n it'

/-- The finite sequence obtained by exhausting the iterator forward. -/
def DecimalValuesIter.toListFwd (it : DecimalValuesIter) : List Int :=
  DecimalValuesIter.collectNext (it.endIdx - it.index) it

/-- The finite sequence obtained by exhausting the iterator backward. -/
def DecimalValuesIter.toListBwd (it : DecimalValuesIter) : List Int :=
  DecimalValuesIter.collectBack (it.endIdx - it.index) it

/-- `DecimalArray::values_iter` from `src/array/decimal/iterator.rs`. -/
def DecimalArray.values_iter (a : DecimalArray) : DecimalValuesIter :=
  DecimalValuesIter.new a

/-- Modelled from the spec: `zip_validity` (bitmap utility outside `src/`):
composes the raw value sequence with the validity bits, yielding `some`
where the bit is set (or when there is no bitmap) and `none` otherwise. -/
def zipValidity (vals : List Int) (validity : Option (List Bool)) :
    List (Option Int) :=
  match validity with
  | none => vals.map some
  | some bits => (vals.zip bits).map (fun p => if p.2 then some p.1 else none)

/-- Modelled from the spec: `DecimalArray::iter` as the list it enumerates —
the raw values iterator zipped with the validity bitmap. -/
def DecimalArray.iterList (a : DecimalArray) : List (Option Int) :=
  zipValidity ((List.range a.len).map a.value_unchecked) a.data.validity

/- ### Well-formedness (the construction invariants of section 3 of the spec) -/

/-- The spec's invariants for an immutable decimal array: the delegate's
width is the 16-byte decimal encoding width, the byte buffer holds whole
slots, and the bitmap (when present) has the array's length. -/
def DecimalArray.wf (a : DecimalArray) : Prop :=
  a.data.size = 16 ∧ 16 ∣ a.data.values.length ∧
    (∀ bs, a.data.validity = some bs → bs.length = a.data.len)

/-- The spec's invariants for the builder: delegate width 16, whole slots,
bitmap length in sync. -/
def MutableDecimalArray.wf (b : MutableDecimalArray) : Prop :=
  b.inner.size = 16 ∧ 16 ∣ b.inner.values.length ∧
    (∀ bs, b.inner.validity = some bs → bs.length = b.inner.len)

set_option maxRecDepth 10000

/- ### Helper lemmas -/

theorem i128_to_le_bytes_length (v : Int) : (i128_to_le_bytes v).length = 16 :=
  toLeBytesAux_length 16 _

theorem decimal_table_bounds (i : Nat) (h : i < 38) :
    -(2 ^ 127) ≤ MIN_DECIMAL_FOR_EACH_PRECISION.getD i 0 ∧
      MAX_DECIMAL_FOR_EACH_PRECISION.getD i 0 < 2 ^ 127 := by
  have hall : ∀ j < 38, -(2 ^ 127) ≤ MIN_DECIMAL_FOR_EACH_PRECISION.getD j 0 ∧
      MAX_DECIMAL_FOR_EACH_PRECISION.getD j 0 < (2 : Int) ^ 127 := by decide
  exact hall i h

/-- When the precision is in range, the value is within the table bounds and
the slot width is at most 16, `try_push_with` passes every check and returns
`Ok(())` over the delegate state produced by `innerPush` — whatever `Result`
component `innerPush` produced. -/
theorem tryPushWith_checks_pass
    (innerPush : List Nat → MutableFixedSizeBinaryArray →
      Except ArrowError Unit × MutableFixedSizeBinaryArray)
    (b : MutableDecimalArray) (v : Int)
    (hp1 : 1 ≤ b.precision) (hp2 : b.precision ≤ 38)
    (hmin : MIN_DECIMAL_FOR_EACH_PRECISION.getD (b.precision - 1) 0 ≤ v)
    (hmax : v ≤ MAX_DECIMAL_FOR_EACH_PRECISION.getD (b.precision - 1) 0)
    (hsize : b.inner.size ≤ 16) :
    MutableDecimalArray.try_push_with innerPush b (some v)
      = some (Except.ok (), { b with
          inner := (innerPush ((i128_to_le_bytes v).drop (16 - b.inner.size)) b.inner).2 }) := by
  have hp0 : ¬ (b.precision = 0) := by omega
  have h38 : ¬ (38 ≤ b.precision - 1) := by omega
  have hrange : ¬ (MAX_DECIMAL_FOR_EACH_PRECISION.getD (b.precision - 1) 0 < v
      ∨ v < MIN_DECIMAL_FOR_EACH_PRECISION.getD (b.precision - 1) 0) := by
    rw [not_or]
    exact ⟨not_lt.mpr hmax, not_lt.mpr hmin⟩
  have hnot16 : ¬ (b.inner.size > 16) := by omega
  have hlen : ((i128_to_le_bytes v).drop (16 - b.inner.size)).length = b.inner.size := by
    rw [List.length_drop, i128_to_le_bytes_length]
    omega
  have hne : ¬ (b.inner.size ≠ ((i128_to_le_bytes v).drop (16 - b.inner.size)).length) := by
    rw [hlen]
    exact fun h => h rfl
  unfold MutableDecimalArray.try_push_with MutableDecimalArray.from_i128_to_fixed_size_bytes
  dsimp only
  rw [if_neg hp0, if_neg h38, if_neg hrange, if_neg hnot16]
  dsimp only
  rw [if_neg hne]

/- ### Claims -/

/-- C2: for every precision `p ∈ [1,37]` the table entries at index `p - 1`
are `10 ^ p - 1` and `-(10 ^ p - 1)`; at index 37 (precision 38) they are
`2 ^ 127 - 1` and `-(2 ^ 127)`, the full 128-bit signed range. -/
theorem decimal_precision_tables (p : Fin 38) :
    MAX_DECIMAL_FOR_EACH_PRECISION.getD p.val 0
        = (if p.val = 37 then 2 ^ 127 - 1 else 10 ^ (p.val + 1) - 1)
      ∧ MIN_DECIMAL_FOR_EACH_PRECISION.getD p.val 0
        = (if p.val = 37 then -(2 ^ 127) else -(10 ^ (p.val + 1) - 1)) := by
  revert p
  decide

/-- C1: pushing `Some(v)` with `v` inside the bounds for precision
`p ∈ [1,38]` into `new(capacity, p, s)` succeeds, and after finalization via
`as_box` (or `as_arc`) reading `value` at the corresponding index returns
exactly `v`. -/
theorem decimal_push_read_round_trip (capacity p s : Nat) (v : Int)
    (hp1 : 1 ≤ p) (hp2 : p ≤ 38)
    (hmin : MIN_DECIMAL_FOR_EACH_PRECISION.getD (p - 1) 0 ≤ v)
    (hmax : v ≤ MAX_DECIMAL_FOR_EACH_PRECISION.getD (p - 1) 0) :
    ∃ b', MutableDecimalArray.try_push (MutableDecimalArray.new capacity p s) (some v)
            = some (Except.ok (), b')
      ∧ (MutableDecimalArray.as_box b').value 0 = some v
      ∧ (MutableDecimalArray.as_arc b').value 0 = some v := by
  obtain ⟨hminb, hmaxb⟩ := decimal_table_bounds (p - 1) (by omega)
  have hv1 : -(2 ^ 127) ≤ v := le_trans hminb hmin
  have hv2 : v < 2 ^ 127 := lt_of_le_of_lt hmax hmaxb
  have hrt := i128_round_trip v hv1 hv2
  have hblen := i128_to_le_bytes_length v
  refine ⟨{ inner := { size := 16, values := i128_to_le_bytes v, validity := none },
            precision := p, scale := s }, ?_, ?_, ?_⟩
  · have h := tryPushWith_checks_pass MutableFixedSizeBinaryArray.try_push_some
      (MutableDecimalArray.new capacity p s) v hp1 hp2 hmin hmax (by
        simp [MutableDecimalArray.new, MutableFixedSizeBinaryArray.with_capacity])
    rw [MutableDecimalArray.try_push, h]
    simp [MutableDecimalArray.new, MutableFixedSizeBinaryArray.with_capacity,
      MutableFixedSizeBinaryArray.try_push_some, hblen]
  · simp [MutableDecimalArray.as_box, DecimalArray.from_data, DecimalArray.value,
      MutableFixedSizeBinaryArray.as_fixed_size_array, FixedSizeBinaryArray.len,
      FixedSizeBinaryArray.value, hblen, DEFAULT_DECIMAL_LENGTH,
      List.take_of_length_le (le_of_eq hblen), hrt]
  · simp [MutableDecimalArray.as_arc, DecimalArray.from_data, DecimalArray.value,
      MutableFixedSizeBinaryArray.as_fixed_size_array, FixedSizeBinaryArray.len,
      FixedSizeBinaryArray.value, hblen, DEFAULT_DECIMAL_LENGTH,
      List.take_of_length_le (le_of_eq hblen), hrt]

theorem decimal_push_read_round_trip_witness :
    ∃ b', MutableDecimalArray.try_push (MutableDecimalArray.new 0 1 0) (some 5)
            = some (Except.ok (), b')
      ∧ (MutableDecimalArray.as_box b').value 0 = some 5
      ∧ (MutableDecimalArray.as_arc b').value 0 = some 5 :=
  decimal_push_read_round_trip 0 1 0 5 (by decide) (by decide) (by decide) (by decide)

/-- C3: pushing a value outside `[MIN[p-1], MAX[p-1]]` for precision
`p ∈ [1,38]` returns the invalid-argument error carrying the value and the
`(precision, scale)` pair, and leaves the builder (hence its logical length
and delegate state) unchanged. -/
theorem decimal_try_push_out_of_range (b : MutableDecimalArray) (v : Int)
    (hp1 : 1 ≤ b.precision) (hp2 : b.precision ≤ 38)
    (hout : MAX_DECIMAL_FOR_EACH_PRECISION.getD (b.precision - 1) 0 < v
      ∨ v < MIN_DECIMAL_FOR_EACH_PRECISION.getD (b.precision - 1) 0) :
    MutableDecimalArray.try_push b (some v)
      = some (Except.error (ArrowError.invalidArgumentError
          ("The value of " ++ toString v ++ " i128 is not compatible with Decimal("
            ++ toString b.precision ++ "," ++ toString b.scale ++ ")")), b) := by
  have hp0 : ¬ (b.precision = 0) := by omega
  have h38 : ¬ (38 ≤ b.precision - 1) := by omega
  unfold MutableDecimalArray.try_push MutableDecimalArray.try_push_with
  dsimp only
  rw [if_neg hp0, if_neg h38, if_pos hout]

theorem decimal_try_push_out_of_range_witness :
    MutableDecimalArray.try_push (MutableDecimalArray.new 0 2 1) (some 1000)
      = some (Except.error (ArrowError.invalidArgumentError
          ("The value of " ++ toString (1000 : Int)
            ++ " i128 is not compatible with Decimal("
            ++ toString (2 : Nat) ++ "," ++ toString (1 : Nat) ++ ")")),
          MutableDecimalArray.new 0 2 1) :=
  decimal_try_push_out_of_range (MutableDecimalArray.new 0 2 1) 1000
    (by decide) (by decide) (by decide)

/-- C4 counterexample: at `v = 1`, `size = 1` the function returns `[0]`,
the most significant byte, not the low-order byte `[1]` of the little-endian
representation — so the claim as stated (low-order bytes) is false. -/
theorem decimal_encode_truncation_counterexample :
    MutableDecimalArray.from_i128_to_fixed_size_bytes 1 1
      ≠ Except.ok ((i128_to_le_bytes 1).take 1) := by
  intro h
  unfold MutableDecimalArray.from_i128_to_fixed_size_bytes at h
  rw [if_neg (by omega)] at h
  have hinj : (i128_to_le_bytes 1).drop (16 - 1) = (i128_to_le_bytes 1).take 1 :=
    Except.ok.inj h
  have h1 : (i128_to_le_bytes 1).drop (16 - 1) = [0] := by decide
  have h2 : (i128_to_le_bytes 1).take 1 = [1] := by decide
  rw [h1, h2] at hinj
  exact absurd hinj (by decide)

/-- C4 amended: for `size ≤ 16`, `from_i128_to_fixed_size_bytes(v, size)`
returns the HIGH-order (most significant) `size` bytes of the 16-byte
little-endian two's-complement representation of `v` — a byte list of
length `size` whose little-endian value is `(v mod 2 ^ 128) / 256 ^ (16 - size)`;
for `size > 16` it fails with an invalid-argument error. -/
theorem decimal_encode_truncation_amended (v : Int) (size : Nat) :
    (size ≤ 16 →
      ∃ bs, MutableDecimalArray.from_i128_to_fixed_size_bytes v size = Except.ok bs
        ∧ bs = (i128_to_le_bytes v).drop (16 - size)
        ∧ bs.length = size
        ∧ fromLeBytesNat bs = (v % (2 : Int) ^ 128).toNat / 256 ^ (16 - size))
  ∧ (16 < size →
      MutableDecimalArray.from_i128_to_fixed_size_bytes v size
        = Except.error (ArrowError.invalidArgumentError
            ("DecimalBuilder only supports values up to 16 bytes."))) := by
  constructor
  · intro hsize
    refine ⟨(i128_to_le_bytes v).drop (16 - size), ?_, rfl, ?_, ?_⟩
    · unfold MutableDecimalArray.from_i128_to_fixed_size_bytes
      rw [if_neg (by omega)]
    · rw [List.length_drop, i128_to_le_bytes_length]
      omega
    · unfold i128_to_le_bytes
      rw [toLeBytesAux_drop (16 - size) 16 _ (by omega),
        fromLeBytesNat_toLeBytesAux]
      have hu : (v % (2 : Int) ^ 128).toNat < 2 ^ 128 := by
        have hpos : (0 : Int) < 2 ^ 128 := by positivity
        have h1 := Int.emod_lt_of_pos v hpos
        have h2 := Int.emod_nonneg v (ne_of_gt hpos)
        rw [Int.toNat_lt h2]
        exact_mod_cast h1
      have hsub : 16 - (16 - size) = size := by omega
      rw [hsub]
      apply Nat.mod_eq_of_lt
      apply Nat.div_lt_of_lt_mul
      calc (v % (2 : Int) ^ 128).toNat < 2 ^ 128 := hu
      _ = 256 ^ 16 := by norm_num
      _ ≤ 256 ^ (16 - size) * 256 ^ size := by
            rw [← pow_add]
            apply Nat.pow_le_pow_right (by norm_num)
            omega
  · intro hsize
    unfold MutableDecimalArray.from_i128_to_fixed_size_bytes
    rw [if_pos (by omega)]

theorem decimal_encode_truncation_amended_witness :
    (∃ bs, MutableDecimalArray.from_i128_to_fixed_size_bytes 258 15 = Except.ok bs
        ∧ bs = (i128_to_le_bytes 258).drop 1
        ∧ bs.length = 15
        ∧ fromLeBytesNat bs = ((258 : Int) % (2 : Int) ^ 128).toNat / 256 ^ 1)
  ∧ MutableDecimalArray.from_i128_to_fixed_size_bytes 258 17
      = Except.error (ArrowError.invalidArgumentError
          ("DecimalBuilder only supports values up to 16 bytes.")) :=
  ⟨(decimal_encode_truncation_amended 258 15).1 (by decide),
   (decimal_encode_truncation_amended 258 17).2 (by decide)⟩

/-- C9: once the range check and the encoded-length check pass, the
`Result` of the delegate's push is discarded and `try_push` returns
`Ok(())` — here even under the explicit hypothesis that the delegate push
failed, the call still returns `Ok(())` over whatever state the delegate
left behind. -/
theorem decimal_try_push_swallows_inner_error
    (innerPush : List Nat → MutableFixedSizeBinaryArray →
      Except ArrowError Unit × MutableFixedSizeBinaryArray)
    (b : MutableDecimalArray) (v : Int) (e : ArrowError)
    (hp1 : 1 ≤ b.precision) (hp2 : b.precision ≤ 38)
    (hmin : MIN_DECIMAL_FOR_EACH_PRECISION.getD (b.precision - 1) 0 ≤ v)
    (hmax : v ≤ MAX_DECIMAL_FOR_EACH_PRECISION.getD (b.precision - 1) 0)
    (hsize : b.inner.size ≤ 16)
    (_hfail : (innerPush ((i128_to_le_bytes v).drop (16 - b.inner.size)) b.inner).1
      = Except.error e) :
    MutableDecimalArray.try_push_with innerPush b (some v)
      = some (Except.ok (), { b with
          inner := (innerPush ((i128_to_le_bytes v).drop (16 - b.inner.size)) b.inner).2 }) :=
  tryPushWith_checks_pass innerPush b v hp1 hp2 hmin hmax hsize

theorem decimal_try_push_swallows_inner_error_witness :
    MutableDecimalArray.try_push_with
        (fun _ m => (Except.error (ArrowError.invalidArgumentError ("inner push failed")), m))
        (MutableDecimalArray.new 0 1 0) (some 3)
      = some (Except.ok (), MutableDecimalArray.new 0 1 0) :=
  decimal_try_push_swallows_inner_error
    (fun _ m => (Except.error (ArrowError.invalidArgumentError ("inner push failed")), m))
    (MutableDecimalArray.new 0 1 0) 3
    (ArrowError.invalidArgumentError ("inner push failed"))
    (by decide) (by decide) (by decide) (by decide) (by decide) rfl

/-- C10: pushing `Some(v)` on a builder constructed with `precision = 0` or
`precision > 38` panics (embedded as `none`: `usize` underflow of
`precision - 1`, then index out of bounds in the 38-entry tables) instead of
returning a recoverable error; `new` itself performs no validation. -/
theorem decimal_try_push_unchecked_precision (capacity p s : Nat) (v : Int)
    (hp : p = 0 ∨ 38 < p) :
    MutableDecimalArray.try_push (MutableDecimalArray.new capacity p s) (some v)
      = none := by
  unfold MutableDecimalArray.try_push MutableDecimalArray.try_push_with
  dsimp only [MutableDecimalArray.new]
  rcases hp with hp | hp
  · rw [if_pos hp]
  · rw [if_neg (by omega), if_pos (by omega)]

theorem decimal_try_push_unchecked_precision_witness :
    MutableDecimalArray.try_push (MutableDecimalArray.new 0 0 0) (some 3) = none
  ∧ MutableDecimalArray.try_push (MutableDecimalArray.new 0 39 0) (some 3) = none :=
  ⟨decimal_try_push_unchecked_precision 0 0 0 3 (Or.inl rfl),
   decimal_try_push_unchecked_precision 0 39 0 3 (Or.inr (by decide))⟩

/-- Under the spec's construction invariants, the byte buffer length is
exactly `16 * len`. -/
theorem DecimalArray.wf_values_length (a : DecimalArray) (hwf : a.wf) :
    a.data.values.length = 16 * a.len := by
  obtain ⟨hsz, hdvd, -⟩ := hwf
  unfold DecimalArray.len FixedSizeBinaryArray.len
  rw [hsz]
  exact (Nat.mul_div_cancel' hdvd).symm

/-- C5: for a well-formed array, `slice(o, l)` succeeds exactly when
`o + l ≤ len()`, the result has length `l`, and each of its elements reads
back as the original element at `o + i`; when `o + l > len()` the call
panics (embedded as `none`). -/
theorem decimal_slice_semantics (a : DecimalArray) (o l : Nat) (hwf : a.wf) :
    (o + l ≤ a.len →
      ∃ a', a.slice o l = some a'
        ∧ a'.len = l
        ∧ ∀ i, i < l → a'.value i = a.value (o + i))
  ∧ (a.len < o + l → a.slice o l = none) := by
  have hsz : a.data.size = 16 := hwf.1
  have hL := DecimalArray.wf_values_length a hwf
  constructor
  · intro hbound
    refine ⟨a.slice_unchecked o l, ?_, ?_, ?_⟩
    · unfold DecimalArray.slice
      rw [if_pos hbound]
    · unfold DecimalArray.slice_unchecked DecimalArray.len FixedSizeBinaryArray.len
        FixedSizeBinaryArray.slice_unchecked
      dsimp only
      rw [hsz, List.length_take, List.length_drop, hL]
      rw [Nat.min_eq_left (by omega)]
      omega
    · intro i hi
      have hbytes : (a.data.slice_unchecked o l).value i = a.data.value (o + i) := by
        unfold FixedSizeBinaryArray.slice_unchecked FixedSizeBinaryArray.value
        dsimp only
        rw [hsz, List.drop_take, List.drop_drop, List.take_take]
        rw [Nat.min_eq_left (by omega)]
        have hidx : o * 16 + i * 16 = (o + i) * 16 := by ring
        rw [hidx]
      have hslen : (a.data.slice_unchecked o l).len = l := by
        unfold FixedSizeBinaryArray.slice_unchecked FixedSizeBinaryArray.len
        dsimp only
        rw [hsz, List.length_take, List.length_drop, hL]
        rw [Nat.min_eq_left (by omega)]
        omega
      have horig : (a.data.value (o + i)).length = 16 := by
        unfold FixedSizeBinaryArray.value
        rw [hsz, List.length_take, List.length_drop, hL]
        omega
      unfold DecimalArray.value DecimalArray.slice_unchecked
      dsimp only
      rw [hslen, hbytes, if_pos hi, horig]
      have hoi : o + i < a.data.len := by
        unfold FixedSizeBinaryArray.len
        rw [hsz, hL]
        omega
      rw [if_pos hoi]
  · intro hbound
    unfold DecimalArray.slice
    rw [if_neg (by omega)]

theorem decimal_slice_semantics_witness :
    (∃ a', DecimalArray.slice
        (DecimalArray.from_data 3 0
          { size := 16, values := List.replicate 32 0, validity := none }) 1 1
        = some a'
      ∧ a'.len = 1
      ∧ ∀ i, i < 1 → a'.value i
          = (DecimalArray.from_data 3 0
              { size := 16, values := List.replicate 32 0, validity := none }).value (1 + i))
  ∧ DecimalArray.slice
      (DecimalArray.from_data 3 0
        { size := 16, values := List.replicate 32 0, validity := none }) 2 1
      = none := by
  have hwf : (DecimalArray.from_data 3 0
      { size := 16, values := List.replicate 32 0, validity := none }).wf := by
    refine ⟨rfl, ⟨2, by decide⟩, ?_⟩
    intro bs h
    cases h
  exact ⟨(decimal_slice_semantics _ 1 1 hwf).1 (by decide),
    (decimal_slice_semantics _ 2 1 hwf).2 (by decide)⟩

/-- C6: for a well-formed array, `value(i)` panics (embedded as `none`)
exactly when `i ≥ len()`; for `i < len()` it returns the i128 decoded from
the element's 16 little-endian bytes; and it never consults the validity
bitmap (replacing the bitmap by anything leaves every read unchanged), so
reading a null slot returns the decoded stored bytes. -/
theorem decimal_value_bounds_null_blindness (a : DecimalArray) (hwf : a.wf) :
    (∀ i, a.value i = none ↔ a.len ≤ i)
  ∧ (∀ i, i < a.len → a.value i = some (i128_from_le_bytes (a.data.value i)))
  ∧ (∀ i validity,
      DecimalArray.value { a with data := { a.data with validity := validity } } i
        = a.value i) := by
  have hsz : a.data.size = 16 := hwf.1
  have hL := DecimalArray.wf_values_length a hwf
  have hlen : a.data.len = a.len := rfl
  have hsome : ∀ i, i < a.len → a.value i = some (i128_from_le_bytes (a.data.value i)) := by
    intro i hi
    have hblen : (a.data.value i).length = 16 := by
      unfold FixedSizeBinaryArray.value
      rw [hsz, List.length_take, List.length_drop, hL]
      omega
    unfold DecimalArray.value
    rw [hlen, if_pos hi]
    dsimp only
    rw [hblen]
    rfl
  refine ⟨?_, hsome, ?_⟩
  · intro i
    constructor
    · intro hnone
      by_contra hcon
      rw [hsome i (by omega)] at hnone
      exact Option.some_ne_none _ hnone
    · intro hge
      unfold DecimalArray.value
      rw [hlen, if_neg (by omega)]
  · intro i validity
    rfl

theorem decimal_value_bounds_null_blindness_witness :
    ((DecimalArray.from_data 1 0
        { size := 16, values := List.replicate 16 0, validity := some [false] }).value 1
        = none
      ↔ (DecimalArray.from_data 1 0
          { size := 16, values := List.replicate 16 0,
            validity := some [false] }).len ≤ 1)
  ∧ (DecimalArray.from_data 1 0
      { size := 16, values := List.replicate 16 0, validity := some [false] }).value 0
      = some (i128_from_le_bytes
          ((DecimalArray.from_data 1 0
            { size := 16, values := List.replicate 16 0,
              validity := some [false] }).data.value 0)) := by
  have hwf : (DecimalArray.from_data 1 0
      { size := 16, values := List.replicate 16 0, validity := some [false] }).wf := by
    refine ⟨rfl, ⟨1, by decide⟩, ?_⟩
    intro bs h
    cases h
    decide
  exact ⟨(decimal_value_bounds_null_blindness _ hwf).1 1,
    (decimal_value_bounds_null_blindness _ hwf).2.1 0 (by decide)⟩

theorem list_get?_zip {α β : Type} (l1 : List α) (l2 : List β) (i : Nat) :
    (l1.zip l2).get? i = match l1.get? i, l2.get? i with
      | some x, some y => some (x, y)
      | _, _ => none := by
  induction l1 generalizing l2 i with
  | nil => cases h2 : l2.get? i <;> simp
  | cons x xs ih =>
    cases l2 with
    | nil =>
      cases h1 : (x :: xs).get? i <;> simp
    | cons y ys =>
      cases i with
      | zero => rfl
      | succ n => simpa using ih ys n

/-- Element lookup in `zipValidity`: valid positions yield `some value`,
invalid ones `none`. -/
theorem zipValidity_get? (vals : List Int) (bits : List Bool) (i : Nat)
    (v : Int) (b : Bool) (hv : vals.get? i = some v) (hb : bits.get? i = some b) :
    (zipValidity vals (some bits)).get? i = some (if b then some v else none) := by
  unfold zipValidity
  rw [List.get?_map, list_get?_zip, hv, hb]
  rfl

/-- C7: pushing `None` (equivalently `push_null`) increments the logical
length; after finalization via `as_box` the validity at that index is
`false` and `iter()` yields `None` at that position; positions whose
validity bit is set (or any position of an array without a bitmap) yield
`Some` of the stored value. -/
theorem decimal_null_round_trip (b : MutableDecimalArray) (hwf : b.wf) :
    (b.push_null).len = b.len + 1
  ∧ MutableDecimalArray.try_push b none = some (Except.ok (), b.push_null)
  ∧ (b.push_null.as_box).isValid b.len = false
  ∧ (b.push_null.as_box).iterList.get? b.len = some none
  ∧ (∀ c : DecimalArray, c.wf → ∀ i, i < c.len → c.isValid i = true →
      c.iterList.get? i = some (some (c.value_unchecked i))) := by
  obtain ⟨hsz, hdvd, hval⟩ := hwf
  have hlen : (b.push_null).len = b.len + 1 := by
    unfold MutableDecimalArray.push_null MutableDecimalArray.len
      MutableFixedSizeBinaryArray.push_none MutableFixedSizeBinaryArray.len
    dsimp only
    rw [hsz, List.length_append, List.length_replicate]
    exact Nat.add_div_right _ (by norm_num)
  have holdlen : (b.inner.validity.getD (List.replicate b.inner.len true)).length
      = b.len := by
    cases hv : b.inner.validity with
    | none => simp [MutableDecimalArray.len]
    | some bs => simpa using hval bs hv
  refine ⟨hlen, rfl, ?_, ?_, ?_⟩
  · unfold MutableDecimalArray.push_null MutableDecimalArray.as_box
      DecimalArray.from_data MutableFixedSizeBinaryArray.as_fixed_size_array
      MutableFixedSizeBinaryArray.push_none DecimalArray.isValid
    dsimp only
    rw [List.getD_eq_get?, ← holdlen, List.get?_concat_length]
    rfl
  · have halen : (b.push_null.as_box).len = b.len + 1 := hlen
    have hvals : ((List.range (b.push_null.as_box).len).map
        (b.push_null.as_box).value_unchecked).get? b.len
        = some ((b.push_null.as_box).value_unchecked b.len) := by
      rw [List.get?_map, List.get?_range (by omega)]
      rfl
    have hbits : ((b.inner.validity.getD (List.replicate b.inner.len true))
        ++ [false]).get? b.len = some false := by
      rw [← holdlen, List.get?_concat_length]
    have hdval : (b.push_null.as_box).data.validity
        = some ((b.inner.validity.getD (List.replicate b.inner.len true)) ++ [false]) :=
      rfl
    unfold DecimalArray.iterList
    rw [hdval, zipValidity_get? _ _ _ _ _ hvals hbits]
    rfl
  · intro c hcwf i hi hvalid
    unfold DecimalArray.iterList
    cases hv : c.data.validity with
    | none =>
      unfold zipValidity
      rw [List.get?_map, List.get?_map, List.get?_range hi]
      rfl
    | some bs =>
      have hbslen : bs.length = c.len := hcwf.2.2 bs hv
      have hbit : bs.get? i = some true := by
        have hget := List.get?_eq_get (l := bs) (n := i) (by omega)
        unfold DecimalArray.isValid at hvalid
        rw [hv] at hvalid
        dsimp only at hvalid
        rw [List.getD_eq_get?, hget] at hvalid
        rw [hget]
        simpa using hvalid
      have hvals : ((List.range c.len).map c.value_unchecked).get? i
          = some (c.value_unchecked i) := by
        rw [List.get?_map, List.get?_range hi]
        rfl
      rw [zipValidity_get? _ _ _ _ _ hvals hbit]
      rfl

theorem decimal_null_round_trip_witness :
    ((MutableDecimalArray.new 0 10 2).push_null).len
        = (MutableDecimalArray.new 0 10 2).len + 1
  ∧ (((MutableDecimalArray.new 0 10 2).push_null).as_box).isValid 0 = false
  ∧ (((MutableDecimalArray.new 0 10 2).push_null).as_box).iterList.get? 0
      = some none := by
  have hwf : (MutableDecimalArray.new 0 10 2).wf := by
    refine ⟨rfl, ⟨0, rfl⟩, ?_⟩
    intro bs h
    cases h
  have h := decimal_null_round_trip (MutableDecimalArray.new 0 10 2) hwf
  exact ⟨h.1, h.2.2.1, h.2.2.2.1⟩

/-- Forward collection enumerates `value_unchecked` over `[index, end)`. -/
theorem collectNext_eq (n : Nat) :
    ∀ it : DecimalValuesIter, it.index + n = it.endIdx →
      DecimalValuesIter.collectNext n it
        = (List.range' it.index n).map it.array.value_unchecked := by
  induction n with
  | zero => intro it _; rfl
  | succ n ih =>
    intro it h
    have hne : ¬ (it.index = it.endIdx) := by omega
    unfold DecimalValuesIter.collectNext DecimalValuesIter.next
    rw [if_neg hne]
    dsimp only
    rw [ih { it with index := it.index + 1 } (by dsimp only; omega)]
    rfl

/-- Backward collection enumerates the same range reversed. -/
theorem collectBack_eq (n : Nat) :
    ∀ it : DecimalValuesIter, it.index + n = it.endIdx →
      DecimalValuesIter.collectBack n it
        = ((List.range' it.index n).map it.array.value_unchecked).reverse := by
  induction n with
  | zero => intro it _; rfl
  | succ n ih =>
    intro it h
    have hne : ¬ (it.index = it.endIdx) := by omega
    unfold DecimalValuesIter.collectBack DecimalValuesIter.next_back
    rw [if_neg hne]
    dsimp only
    rw [ih { it with endIdx := it.endIdx - 1 } (by dsimp only; omega)]
    have hrange : List.range' it.index (n + 1)
        = List.range' it.index n ++ [it.index + n] := by
      simpa using @List.range'_concat 1 it.index n
    rw [hrange, List.map_append, List.reverse_append]
    have hend : it.endIdx - 1 = it.index + n := by omega
    rw [hend]
    rfl

/-- C8: collecting `values_iter()` by repeated `next()` equals the sequence
collected by repeated `next_back()` reversed; once `index == end` both ends
return `None`; and a step from either end keeps `index ≤ end` (the ends
never cross). -/
theorem decimal_values_iter_symmetry :
    (∀ a : DecimalArray,
      (a.values_iter).toListFwd = ((a.values_iter).toListBwd).reverse)
  ∧ (∀ it : DecimalValuesIter, it.index = it.endIdx →
      it.next = none ∧ it.next_back = none)
  ∧ (∀ (it it' : DecimalValuesIter) (v : Int), it.index ≤ it.endIdx →
      (it.next = some (v, it') ∨ it.next_back = some (v, it')) →
      it'.index ≤ it'.endIdx) := by
  refine ⟨?_, ?_, ?_⟩
  · intro a
    have hidx : (a.values_iter).index + ((a.values_iter).endIdx - (a.values_iter).index)
        = (a.values_iter).endIdx := by
      simp [DecimalArray.values_iter, DecimalValuesIter.new]
    unfold DecimalValuesIter.toListFwd DecimalValuesIter.toListBwd
    rw [collectNext_eq _ _ hidx, collectBack_eq _ _ hidx, List.reverse_reverse]
  · intro it h
    unfold DecimalValuesIter.next DecimalValuesIter.next_back
    rw [if_pos h, if_pos h]
    exact ⟨rfl, rfl⟩
  · intro it it' v hle hstep
    by_cases hc : it.index = it.endIdx
    · rcases hstep with hstep | hstep
      · unfold DecimalValuesIter.next at hstep
        rw [if_pos hc] at hstep
        cases hstep
      · unfold DecimalValuesIter.next_back at hstep
        rw [if_pos hc] at hstep
        cases hstep
    · have hlt : it.index < it.endIdx := by omega
      rcases hstep with hstep | hstep
      · unfold DecimalValuesIter.next at hstep
        rw [if_neg hc] at hstep
        have hpair := Option.some.inj hstep
        have hit : { it with index := it.index + 1 } = it' :=
          congrArg Prod.snd hpair
        rw [← hit]
        dsimp only
        omega
      · unfold DecimalValuesIter.next_back at hstep
        rw [if_neg hc] at hstep
        have hpair := Option.some.inj hstep
        have hit : { it with endIdx := it.endIdx - 1 } = it' :=
          congrArg Prod.snd hpair
        rw [← hit]
        dsimp only
        omega

theorem decimal_values_iter_symmetry_witness :
    DecimalValuesIter.next
        { array := DecimalArray.from_data 1 0
            { size := 16, values := [], validity := none },
          index := 0, endIdx := 0 } = none
  ∧ DecimalValuesIter.next_back
        { array := DecimalArray.from_data 1 0
            { size := 16, values := [], validity := none },
          index := 0, endIdx := 0 } = none :=
  decimal_values_iter_symmetry.2.1
    { array := DecimalArray.from_data 1 0
        { size := 16, values := [], validity := none },
      index := 0, endIdx := 0 } rfl
